import Mathlib

/-!
Shallow embedding of the rust-rocksdb resource-safety and concurrency-control
layer (TransactionDB, Snapshot, Transaction, raw iterators, column-family
registry, read-result decoding), together with theorems settling the spec
claims about it.

The Rust crate under verification is a wrapper over a native transactional
key/value engine reached through FFI.  The wrapper code itself (handle
plumbing, registry manipulation, decoding of engine replies into
`Result<Option<_>, Error>`) is embedded directly from the source.  The
engine-side semantics (effect of put/delete/merge on the stored data,
snapshot views, transaction write buffering, key locks, savepoints, iterator
seek rules) are not present in the crate's source; they are modelled from the
specification's words and from the crate's own test suite, as indicated on
each such definition.
-/

namespace RocksDB

/-- Keys are byte strings (`&[u8]` in the source), modelled as lists of
naturals. -/
abbrev Key := List Nat

/-- Values are byte strings (`&[u8]` in the source). -/
abbrev Val := List Nat

/-- Errors carry a human-readable message, exactly as `struct Error` in
`lib.rs` (a single `message: String` field). -/
structure Error where
  message : String
deriving DecidableEq, Repr

/-- Lock-conflict error returned when a write hits a key locked by an open
transaction (engine message shape). -/
def lockTimeoutErr : Error := ⟨"Operation timed out: Timeout waiting to lock key"⟩

/-- Error returned by a transactional read that finds pending merge operands
in the transaction's own write buffer. -/
def mergeInProgressErr : Error := ⟨"Merge In Progress"⟩

/-- Error returned when the registered merge operator fails to combine
operands. -/
def mergeFailedErr : Error := ⟨"Merge operator failed"⟩

/-- Error for operations on a transaction that is no longer open. -/
def txnNotOpenErr : Error := ⟨"Transaction is not in a running state"⟩

/-- Error for `rollback_to_savepoint` with no savepoint set. -/
def noSavepointErr : Error := ⟨"No savepoint"⟩

/-- Bytewise lexicographic `≤` on keys, the engine's default comparator
order over `&[u8]`. -/
def keyLe : Key → Key → Bool
  | [], _ => true
  | _ :: _, [] => false
  | a :: as, b :: bs =>
    if a < b then true
    else if b < a then false
    else keyLe as bs

/-- Modelled from the spec: a single engine write operation, as buffered by
write batches and transactions and as applied by commit (`put`, `delete`,
`merge` in sections 4.1 and 4.4). -/
inductive WriteOp
  | put (k : Key) (v : Val)
  | del (k : Key)
  | merge (k : Key) (v : Val)
deriving DecidableEq, Repr

/-- Key addressed by a write operation. -/
def WriteOp.key : WriteOp → Key
  | .put k _ => k
  | .del k => k
  | .merge k _ => k

/-- Whether a write operation is a merge. -/
def WriteOp.isMerge : WriteOp → Bool
  | .merge _ _ => true
  | _ => false

/-- Modelled from the spec: a merge operator takes the key, the optional
existing value and the ordered pending operands, and produces the resulting
value or signals failure (section 4.6, mirroring the Rust signature
`fn(&[u8], Option<&[u8]>, &mut MergeOperands) -> Option<Vec<u8>>`). -/
abbrev MergeFn := Key → Option Val → List Val → Option Val

/-- Concatenation merge operator of `test_transaction_merge` in
`tests/test_transaction.rs`: existing value, then every operand, appended in
order. -/
def concatMerge : MergeFn := fun _ existing operands =>
  some (existing.getD [] ++ operands.flatten)

/-- Effect of one write operation on the state tracked at key `k`: a put
replaces the base value and clears pending operands, a delete clears both,
a merge appends an operand; operations on other keys change nothing. -/
def applyOpAt (k : Key) (st : Option Val × List Val) (op : WriteOp) :
    Option Val × List Val :=
  match op with
  | .put k' v => if k' = k then (some v, []) else st
  | .del k' => if k' = k then (none, []) else st
  | .merge k' v => if k' = k then (st.1, st.2 ++ [v]) else st

/-- Modelled from the spec: the state a committed history of write
operations leaves at one key — the base value (or absence) left by the last
put/delete, plus the merge operands accumulated since (sections 4.1, 4.6). -/
def keyState (ops : List WriteOp) (k : Key) : Option Val × List Val :=
  ops.foldl (applyOpAt k) (none, [])

/-- Modelled from the spec: the value a read observes at key `k` given a
committed history `ops` — the base value when no merge operands are pending,
otherwise the merge operator's combination of base and operands in order;
merge-operator failure is an error, absence is `ok none` (sections 4.1, 4.6,
7). -/
def viewGet (mf : MergeFn) (ops : List WriteOp) (k : Key) :
    Except Error (Option Val) :=
  let st := keyState ops k
  if st.2.isEmpty then .ok st.1
  else
    match mf k st.1 st.2 with
    | some r => .ok (some r)
    | none => .error mergeFailedErr

/-- The transaction database: its committed state is the ordered history of
committed write operations (commit order, section 5 "Ordering guarantees").
The Rust `TransactionDB` owns the native handle; the history models what the
native engine stores behind that handle. -/
structure TransactionDB where
  history : List WriteOp
deriving DecidableEq, Repr

/-- Database-level read (`GetCF::get_cf_full` in `transaction_db.rs`,
default column family): observes the full committed history. -/
def TransactionDB.get (mf : MergeFn) (db : TransactionDB) (k : Key) :
    Except Error (Option Val) :=
  viewGet mf db.history k

/-- Modelled from the spec: database-level `put`
(`PutCF::put_cf_full` forwards to the engine; the engine commits the write
unless the key is locked by an open transaction, in which case it fails
with a lock/timeout error — sections 4.1, 4.4 "Conflict policy").
`openLocks` is the set of keys currently locked by open transactions. -/
def TransactionDB.put (openLocks : List Key) (db : TransactionDB) (k : Key)
    (v : Val) : Except Error TransactionDB :=
  if k ∈ openLocks then .error lockTimeoutErr
  else .ok ⟨db.history ++ [.put k v]⟩

/-- Modelled from the spec: database-level `delete`
(`DeleteCF::delete_cf_full`), same lock-conflict policy as `put`. -/
def TransactionDB.delete (openLocks : List Key) (db : TransactionDB)
    (k : Key) : Except Error TransactionDB :=
  if k ∈ openLocks then .error lockTimeoutErr
  else .ok ⟨db.history ++ [.del k]⟩

/-- Modelled from the spec: database-level `merge`
(`MergeCF::merge_cf_full`), same lock-conflict policy as `put`. -/
def TransactionDB.mergeOp (openLocks : List Key) (db : TransactionDB)
    (k : Key) (v : Val) : Except Error TransactionDB :=
  if k ∈ openLocks then .error lockTimeoutErr
  else .ok ⟨db.history ++ [.merge k v]⟩

/-- Modelled from the spec: `snapshot()` stamps the current sequence number —
here, the length of the committed history (section 4.3: O(1)
sequence-number stamp; `TransactionDB::snapshot` in `transaction_db.rs`). -/
def TransactionDB.snapshotSeq (db : TransactionDB) : Nat :=
  db.history.length

/-- Modelled from the spec: a read through a snapshot observes only the
prefix of the history committed before the snapshot was taken
(`GetCF for Snapshot` pins the read options to the snapshot; section 4.3:
"Reads issued through a Snapshot ignore all writes committed after the
snapshot was taken"). -/
def snapshotGet (mf : MergeFn) (db : TransactionDB) (seq : Nat) (k : Key) :
    Except Error (Option Val) :=
  viewGet mf (db.history.take seq) k

/-- Terminal states of a transaction (section 4.4: *open* →
{*committed*, *rolled back*}). -/
inductive TxStatus
  | opened
  | committedTx
  | rolledBack
deriving DecidableEq, Repr

/-- Modelled from the spec: an open transaction's in-flight state — the
buffered (uncommitted) write operations in issue order, the savepoint stack
(each savepoint records the buffer length and the lock set at the time it
was set), the keys this transaction has locked, the optional sequence number
captured at begin when `set_snapshot` was requested, and the lifecycle
status (section 4.4; `Transaction` in the crate holds only the native
handle). -/
structure Txn where
  buffer : List WriteOp
  savepoints : List (Nat × List Key)
  locks : List Key
  snapshotSeq : Option Nat
  status : TxStatus
deriving DecidableEq, Repr

/-- Modelled from the spec: `TransactionBegin::transaction` — a fresh
transaction with empty buffer, no savepoints, no locks, and a captured
snapshot sequence number iff `set_snapshot(true)` was passed in the
transaction options. -/
def Txn.begin (db : TransactionDB) (setSnapshot : Bool) : Txn :=
  ⟨[], [], [], if setSnapshot then some db.snapshotSeq else none, .opened⟩

/-- Modelled from the spec: pessimistic lock acquisition on one key.
Re-acquiring a lock this transaction already holds succeeds; a key locked by
another open transaction (`otherLocks`) fails immediately with a
lock/timeout error (section 4.4 "Conflict policy", no finite timeout
configured); otherwise the key is added to this transaction's lock set. -/
def acquireLock (otherLocks : List Key) (t : Txn) (k : Key) :
    Except Error Txn :=
  if k ∈ t.locks then .ok t
  else if k ∈ otherLocks then .error lockTimeoutErr
  else .ok { t with locks := k :: t.locks }

/-- Buffered operations of a transaction that address key `k`, in issue
order. -/
def bufferedFor (buf : List WriteOp) (k : Key) : List WriteOp :=
  buf.filter (fun op => op.key = k)

/-- Modelled from the spec: `Transaction::put` — fails unless the
transaction is open, acquires the key lock (failing on conflict), then
appends the operation to the write buffer; nothing is committed (section
4.4: "buffered within the transaction; not visible to other transactions
until commit"). -/
def Txn.put (otherLocks : List Key) (t : Txn) (k : Key) (v : Val) :
    Except Error Txn :=
  if t.status ≠ .opened then .error txnNotOpenErr
  else
    match acquireLock otherLocks t k with
    | .error e => .error e
    | .ok t' => .ok { t' with buffer := t'.buffer ++ [.put k v] }

/-- Modelled from the spec: `Transaction::delete`, buffered like `put`. -/
def Txn.delete (otherLocks : List Key) (t : Txn) (k : Key) :
    Except Error Txn :=
  if t.status ≠ .opened then .error txnNotOpenErr
  else
    match acquireLock otherLocks t k with
    | .error e => .error e
    | .ok t' => .ok { t' with buffer := t'.buffer ++ [.del k] }

/-- Modelled from the spec: `Transaction::merge`, buffered like `put`. -/
def Txn.mergeOp (otherLocks : List Key) (t : Txn) (k : Key) (v : Val) :
    Except Error Txn :=
  if t.status ≠ .opened then .error txnNotOpenErr
  else
    match acquireLock otherLocks t k with
    | .error e => .error e
    | .ok t' => .ok { t' with buffer := t'.buffer ++ [.merge k v] }

/-- Modelled from the spec and `test_transaction_merge`:
`Transaction::get` overlays the transaction's own uncommitted writes on the
current committed view (section 4.4; `test_transaction_rollback_savepoint`
shows the base view is the latest committed state, not the begin-time
state).  When the buffer holds merge operands for the key, the read fails
with a merge-in-progress error, as `test_transaction_merge` asserts
(`trans1.get(b"k1").err().unwrap()`). -/
def Txn.get (mf : MergeFn) (db : TransactionDB) (t : Txn) (k : Key) :
    Except Error (Option Val) :=
  if (bufferedFor t.buffer k).any WriteOp.isMerge then .error mergeInProgressErr
  else
    match (bufferedFor t.buffer k).getLast? with
    | some (.put _ v) => .ok (some v)
    | some (.del _) => .ok none
    | _ => db.get mf k

/-- Modelled from the spec: `Transaction::get_for_update` — acquires an
exclusive lock on the key (failing immediately on conflict) and then reads
like `get` (section 4.4). -/
def Txn.getForUpdate (mf : MergeFn) (otherLocks : List Key)
    (db : TransactionDB) (t : Txn) (k : Key) :
    Except Error (Option Val × Txn) :=
  match acquireLock otherLocks t k with
  | .error e => .error e
  | .ok t' =>
    match Txn.get mf db t' k with
    | .error e => .error e
    | .ok v => .ok (v, t')

/-- Modelled from the spec: `set_savepoint` pushes the current buffer length
and lock set on the savepoint stack (section 4.4: "savepoints form a
stack"). -/
def Txn.setSavepoint (t : Txn) : Txn :=
  { t with savepoints := (t.buffer.length, t.locks) :: t.savepoints }

/-- Modelled from the spec: `rollback_to_savepoint` discards the operations
issued after the most recent savepoint, including any locks acquired since,
and pops that savepoint; it fails when no savepoint is set (section 4.4). -/
def Txn.rollbackToSavepoint (t : Txn) : Except Error Txn :=
  match t.savepoints with
  | [] => .error noSavepointErr
  | (n, lks) :: rest =>
    .ok { t with buffer := t.buffer.take n, locks := lks, savepoints := rest }

/-- Modelled from the spec: `commit` — on an open transaction, appends the
buffered operations to the committed history in issue order, releases all
locks and moves to the terminal *committed* state (sections 4.4, 5:
committed writes become visible to subsequently-started reads in commit
order). -/
def Txn.commit (db : TransactionDB) (t : Txn) :
    Except Error (TransactionDB × Txn) :=
  if t.status = .opened then
    .ok (⟨db.history ++ t.buffer⟩, { t with status := .committedTx, locks := [] })
  else .error txnNotOpenErr

/-- Modelled from the spec: `rollback` — discards all buffered changes,
releases held locks and moves to the terminal *rolled back* state (section
4.4). -/
def Txn.rollback (t : Txn) : Except Error Txn :=
  if t.status = .opened then
    .ok { t with buffer := [], locks := [], savepoints := [],
                 status := .rolledBack }
  else .error txnNotOpenErr

/-- Propositional form of the bytewise key order, used as the sorting
relation. -/
def KeyLE (a b : Key) : Prop := keyLe a b = true

instance : DecidableRel KeyLE := fun a b => by
  unfold KeyLE; infer_instance

/-- Keys mentioned anywhere in a history. -/
def opsKeys (ops : List WriteOp) : List Key :=
  ops.map WriteOp.key

/-- A read result that found a value (as opposed to absence or failure). -/
def isPresent (r : Except Error (Option Val)) : Bool :=
  match r with
  | .ok (some _) => true
  | _ => false

/-- Modelled from the spec: the set of keys currently stored in a committed
history, in the comparator's ascending order — exactly the keys a raw
iterator visits (section 4.5; the engine stores keys sorted by the active
comparator). -/
def storedKeys (mf : MergeFn) (ops : List WriteOp) : List Key :=
  List.insertionSort KeyLE
    ((opsKeys ops).dedup.filter (fun k => isPresent (viewGet mf ops k)))

/-- Modelled from the spec: position found by `seek(k)` on an ascending key
list — the first key `≥ k`, or none when every stored key is `< k`
(section 4.5). -/
def seekList : List Key → Key → Option Key
  | [], _ => none
  | j :: rest, k => if keyLe k j then some j else seekList rest k

/-- Modelled from the spec: position found by `seek_for_prev(k)` on an
ascending key list — the last key `≤ k`, or none when every stored key is
`> k` (section 4.5). -/
def seekPrevList : List Key → Key → Option Key
  | [], _ => none
  | j :: rest, k =>
    if keyLe j k then
      match seekPrevList rest k with
      | some r => some r
      | none => some j
    else none

/-- A raw iterator: the ascending stored-key list it ranges over and the
current position (`none` = invalid).  `DBRawIterator` in the crate wraps the
native iterator handle; position and validity live behind it. -/
structure DBRawIterator where
  keys : List Key
  cur : Option Key
deriving DecidableEq, Repr

/-- Modelled from the spec: `Iterate::get_raw_iter` — a fresh raw iterator
over the database's current stored keys, created invalid (section 4.5:
"Created invalid; caller must call... before reading"). -/
def TransactionDB.rawIterator (mf : MergeFn) (db : TransactionDB) :
    DBRawIterator :=
  ⟨storedKeys mf db.history, none⟩

/-- Modelled from the spec: `seek(key)` positions at the smallest stored key
`≥ key`, or invalidates the iterator when there is none (section 4.5). -/
def DBRawIterator.seek (it : DBRawIterator) (k : Key) : DBRawIterator :=
  { it with cur := seekList it.keys k }

/-- Modelled from the spec: `seek_for_prev(key)` positions at the largest
stored key `≤ key`, or invalidates the iterator when there is none
(section 4.5). -/
def DBRawIterator.seekForPrev (it : DBRawIterator) (k : Key) :
    DBRawIterator :=
  { it with cur := seekPrevList it.keys k }

/-- Iterator validity: true iff the cursor references an existing entry
(`DBRawIterator::valid`). -/
def DBRawIterator.valid (it : DBRawIterator) : Bool :=
  it.cur.isSome

/-- Current key of the iterator, `none` when invalid
(`DBRawIterator::key`). -/
def DBRawIterator.currentKey (it : DBRawIterator) : Option Key :=
  it.cur

/-- A column-family handle, opaque to this layer (`ColumnFamily` wraps a
native pointer; modelled as an identifier). -/
abbrev ColumnFamily := Nat

/-- The column-family registry: the `BTreeMap<String, ColumnFamily>` owned
by the database (`cfs` field) — an association list with unique names. -/
abbrev CfRegistry := List (String × ColumnFamily)

/-- Registry lookup, `GetColumnFamily::cf_handle` in `ops/column_family.rs`:
`self.get_cfs().get(name)`. -/
def cf_handle (cfs : CfRegistry) (name : String) : Option ColumnFamily :=
  (cfs.find? (fun p => p.1 = name)).map Prod.snd

/-- Column-family drop, `DropColumnFamily::drop_cf` in
`ops/column_family.rs`: remove the entry if present and drop the native
family, else fail with `"Invalid column family: <name>"` leaving the
registry unchanged.  Returns the updated registry together with the
`Result`. -/
def drop_cf (cfs : CfRegistry) (name : String) :
    CfRegistry × Except Error Unit :=
  match cfs.find? (fun p => p.1 = name) with
  | some _ => (cfs.filter (fun p => p.1 ≠ name), .ok ())
  | none => (cfs, .error ⟨"Invalid column family: " ++ name⟩)

/-- Resolution step of any operation addressed to a column family by name:
the handle is looked up in the registry; a missing entry is a
column-family error (callers such as `get_cf` receive the handle from
`cf_handle` and cannot proceed without it). -/
def resolveCf (cfs : CfRegistry) (name : String) :
    Except Error ColumnFamily :=
  match cf_handle cfs name with
  | some h => .ok h
  | none => .error ⟨"Invalid column family: " ++ name⟩

/-- Outcome of a native point-read call as seen by the wrapper: the
engine either reports an error (through the `ffi_try!` error pointer),
returns a null value pointer (key absent), or returns a value. -/
inductive EngineReply
  | fail (msg : String)
  | notFound
  | found (v : Val)
deriving DecidableEq, Repr

/-- Decoding of a native read reply by `GetCF::get_cf_full`
(`transaction_db.rs`): an engine error becomes `Err` via `ffi_try!`; a null
value pointer becomes `Ok(None)`; otherwise `Ok(Some(value))`. -/
def get_cf_full (reply : EngineReply) : Except Error (Option Val) :=
  match reply with
  | .fail m => .error ⟨m⟩
  | .notFound => .ok none
  | .found v => .ok (some v)

/-- Decoding of a native read reply by `GetPinnedOpt::get_pinned_opt`
(`ops/get_pinned.rs`): identical branch structure — `ffi_try!` error to
`Err`, null pinned slice to `Ok(None)`, otherwise `Ok(Some(value))`. -/
def get_pinned_opt (reply : EngineReply) : Except Error (Option Val) :=
  match reply with
  | .fail m => .error ⟨m⟩
  | .notFound => .ok none
  | .found v => .ok (some v)

/-! ### Helper lemmas on the key order -/

theorem keyLe_refl (a : Key) : keyLe a a = true := by
  induction a with
  | nil => rfl
  | cons x xs ih => simp [keyLe, ih]

theorem keyLe_total (a : Key) : ∀ b : Key, keyLe a b = true ∨ keyLe b a = true := by
  induction a with
  | nil => intro b; left; rfl
  | cons x xs ih =>
    intro b
    cases b with
    | nil => right; rfl
    | cons y ys =>
      simp only [keyLe]
      rcases Nat.lt_trichotomy x y with h | h | h
      · left; simp [h]
      · subst h
        rcases ih ys with h' | h'
        · left; simp [h']
        · right; simp [h']
      · right; simp [h]

theorem keyLe_trans (a : Key) :
    ∀ b c : Key, keyLe a b = true → keyLe b c = true → keyLe a c = true := by
  induction a with
  | nil => intro b c _ _; rfl
  | cons x xs ih =>
    intro b c hab hbc
    cases b with
    | nil => simp [keyLe] at hab
    | cons y ys =>
      cases c with
      | nil => simp [keyLe] at hbc
      | cons z zs =>
        simp only [keyLe] at hab hbc ⊢
        split_ifs at hab hbc ⊢ <;> first
          | rfl
          | omega
          | (exact ih ys zs hab hbc)

theorem keyLe_antisymm (a : Key) :
    ∀ b : Key, keyLe a b = true → keyLe b a = true → a = b := by
  induction a with
  | nil =>
    intro b _ hba
    cases b with
    | nil => rfl
    | cons y ys => simp [keyLe] at hba
  | cons x xs ih =>
    intro b hab hba
    cases b with
    | nil => simp [keyLe] at hab
    | cons y ys =>
      simp only [keyLe] at hab hba
      split_ifs at hab hba <;> first
        | omega
        | (have hx : x = y := by omega
           subst hx
           rw [ih ys hab hba])

/-! ### Helper lemmas on key states and views -/

theorem keyState_append (ops l : List WriteOp) (k : Key) :
    keyState (ops ++ l) k = l.foldl (applyOpAt k) (keyState ops k) := by
  simp [keyState, List.foldl_append]

theorem keyState_put (ops : List WriteOp) (k : Key) (v : Val) :
    keyState (ops ++ [.put k v]) k = (some v, []) := by
  simp [keyState_append, applyOpAt]

theorem keyState_del (ops : List WriteOp) (k : Key) :
    keyState (ops ++ [.del k]) k = (none, []) := by
  simp [keyState_append, applyOpAt]

theorem keyState_merge (ops : List WriteOp) (k : Key) (v : Val) :
    keyState (ops ++ [.merge k v]) k
      = ((keyState ops k).1, (keyState ops k).2 ++ [v]) := by
  simp [keyState_append, applyOpAt]

theorem applyOpAt_other (k : Key) (st : Option Val × List Val)
    (op : WriteOp) (h : op.key ≠ k) : applyOpAt k st op = st := by
  cases op <;> simp [WriteOp.key] at h <;> simp [applyOpAt, h]

theorem keyState_other (ops : List WriteOp) (op : WriteOp) (k : Key)
    (h : op.key ≠ k) : keyState (ops ++ [op]) k = keyState ops k := by
  simp [keyState_append, applyOpAt_other _ _ _ h]

theorem foldl_applyOpAt_no_key (k : Key) :
    ∀ (ops : List WriteOp) (st : Option Val × List Val),
      (∀ op ∈ ops, op.key ≠ k) → ops.foldl (applyOpAt k) st = st := by
  intro ops
  induction ops with
  | nil => intro st _; rfl
  | cons op rest ih =>
    intro st h
    have hop : op.key ≠ k := h op (List.mem_cons_self _ _)
    simp only [List.foldl_cons, applyOpAt_other _ _ _ hop]
    exact ih st (fun o ho => h o (List.mem_cons_of_mem _ ho))

theorem viewGet_put (mf : MergeFn) (ops : List WriteOp) (k : Key) (v : Val) :
    viewGet mf (ops ++ [.put k v]) k = .ok (some v) := by
  simp [viewGet, keyState_put]

theorem viewGet_del (mf : MergeFn) (ops : List WriteOp) (k : Key) :
    viewGet mf (ops ++ [.del k]) k = .ok none := by
  simp [viewGet, keyState_del]

theorem viewGet_other (mf : MergeFn) (ops : List WriteOp) (op : WriteOp)
    (k : Key) (h : op.key ≠ k) :
    viewGet mf (ops ++ [op]) k = viewGet mf ops k := by
  simp [viewGet, keyState_other _ _ _ h]

/-! ### Helper lemmas on stored keys and iterator seek -/

theorem storedKeys_sorted (mf : MergeFn) (ops : List WriteOp) :
    List.Sorted KeyLE (storedKeys mf ops) := by
  haveI : IsTotal Key KeyLE := ⟨keyLe_total⟩
  haveI : IsTrans Key KeyLE := ⟨fun a b c => keyLe_trans a b c⟩
  exact List.sorted_insertionSort _ _

theorem mem_storedKeys (mf : MergeFn) (ops : List WriteOp) (k : Key) :
    k ∈ storedKeys mf ops ↔ isPresent (viewGet mf ops k) = true := by
  unfold storedKeys
  rw [List.mem_insertionSort, List.mem_filter]
  constructor
  · intro ⟨_, hp⟩; exact hp
  · intro hp
    refine ⟨?_, hp⟩
    rw [List.mem_dedup]
    by_contra hnk
    have hall : ∀ op ∈ ops, op.key ≠ k := by
      intro op hop he
      exact hnk (List.mem_map.mpr ⟨op, hop, he⟩)
    have : keyState ops k = (none, []) := foldl_applyOpAt_no_key k ops _ hall
    simp [viewGet, this, isPresent] at hp

theorem seekList_mem {l : List Key} {k j : Key} (h : seekList l k = some j) :
    j ∈ l := by
  induction l with
  | nil => simp [seekList] at h
  | cons x rest ih =>
    simp only [seekList] at h
    split_ifs at h with hx
    · cases h; exact List.mem_cons_self _ _
    · exact List.mem_cons_of_mem _ (ih h)

theorem seekList_ge {l : List Key} {k j : Key} (h : seekList l k = some j) :
    KeyLE k j := by
  induction l with
  | nil => simp [seekList] at h
  | cons x rest ih =>
    simp only [seekList] at h
    split_ifs at h with hx
    · cases h; exact hx
    · exact ih h

theorem seekList_min {l : List Key} (hl : List.Sorted KeyLE l) {k j : Key}
    (h : seekList l k = some j) :
    ∀ j' ∈ l, KeyLE k j' → KeyLE j j' := by
  induction l with
  | nil => simp [seekList] at h
  | cons x rest ih =>
    obtain ⟨hx_rest, hrest⟩ := List.sorted_cons.mp hl
    simp only [seekList] at h
    split_ifs at h with hx
    · cases h
      intro j' hj' _
      rcases List.mem_cons.mp hj' with rfl | hj'
      · exact keyLe_refl _
      · exact hx_rest _ hj'
    · intro j' hj' hk
      rcases List.mem_cons.mp hj' with rfl | hj'
      · exact absurd hk hx
      · exact ih hrest h j' hj' hk

theorem seekList_none {l : List Key} {k : Key} (h : seekList l k = none) :
    ∀ j' ∈ l, ¬ KeyLE k j' := by
  induction l with
  | nil => intro j' hj'; simp at hj'
  | cons x rest ih =>
    simp only [seekList] at h
    split_ifs at h with hx
    · intro j' hj'
      rcases List.mem_cons.mp hj' with rfl | hj'
      · exact hx
      · exact ih h j' hj'

theorem seekList_none_of {l : List Key} {k : Key}
    (h : ∀ j' ∈ l, ¬ KeyLE k j') : seekList l k = none := by
  induction l with
  | nil => rfl
  | cons x rest ih =>
    simp only [seekList]
    split_ifs with hx
    · exact absurd hx (h x (List.mem_cons_self _ _))
    · exact ih (fun j' hj' => h j' (List.mem_cons_of_mem _ hj'))

theorem seekPrevList_mem {l : List Key} {k j : Key}
    (h : seekPrevList l k = some j) : j ∈ l := by
  induction l with
  | nil => simp [seekPrevList] at h
  | cons x rest ih =>
    simp only [seekPrevList] at h
    split_ifs at h with hx
    · cases hrec : seekPrevList rest k with
      | some r =>
        rw [hrec] at h; cases h
        exact List.mem_cons_of_mem _ (ih hrec)
      | none =>
        rw [hrec] at h; cases h
        exact List.mem_cons_self _ _

theorem seekPrevList_le {l : List Key} {k j : Key}
    (h : seekPrevList l k = some j) : KeyLE j k := by
  induction l with
  | nil => simp [seekPrevList] at h
  | cons x rest ih =>
    simp only [seekPrevList] at h
    split_ifs at h with hx
    · cases hrec : seekPrevList rest k with
      | some r => rw [hrec] at h; cases h; exact ih hrec
      | none => rw [hrec] at h; cases h; exact hx

theorem seekPrevList_none {l : List Key} (hl : List.Sorted KeyLE l) {k : Key}
    (h : seekPrevList l k = none) : ∀ j' ∈ l, ¬ KeyLE j' k := by
  induction l with
  | nil => intro j' hj'; simp at hj'
  | cons x rest ih =>
    obtain ⟨hx_rest, hrest⟩ := List.sorted_cons.mp hl
    simp only [seekPrevList] at h
    split_ifs at h with hx
    · cases hrec : seekPrevList rest k <;> rw [hrec] at h <;> cases h
    · intro j' hj' hk
      rcases List.mem_cons.mp hj' with rfl | hj'
      · exact hx hk
      · exact hx (keyLe_trans _ _ _ (hx_rest _ hj') hk)

theorem seekPrevList_max {l : List Key} (hl : List.Sorted KeyLE l) {k j : Key}
    (h : seekPrevList l k = some j) :
    ∀ j' ∈ l, KeyLE j' k → KeyLE j' j := by
  induction l with
  | nil => simp [seekPrevList] at h
  | cons x rest ih =>
    obtain ⟨hx_rest, hrest⟩ := List.sorted_cons.mp hl
    simp only [seekPrevList] at h
    split_ifs at h with hx
    · cases hrec : seekPrevList rest k with
      | some r =>
        rw [hrec] at h; cases h
        intro j' hj' hk
        rcases List.mem_cons.mp hj' with rfl | hj'
        · exact hx_rest _ (seekPrevList_mem hrec)
        · exact ih hrest hrec j' hj' hk
      | none =>
        rw [hrec] at h; cases h
        intro j' hj' hk
        rcases List.mem_cons.mp hj' with rfl | hj'
        · exact keyLe_refl _
        · exact absurd hk (seekPrevList_none hrest hrec j' hj')

theorem seekPrevList_none_of {l : List Key} (hl : List.Sorted KeyLE l)
    {k : Key} (h : ∀ j' ∈ l, ¬ KeyLE j' k) : seekPrevList l k = none := by
  cases l with
  | nil => rfl
  | cons x rest =>
    simp only [seekPrevList]
    split_ifs with hx
    · exact absurd hx (h x (List.mem_cons_self _ _))
    · rfl

/-! ### Claim theorems -/

/-- C1: for every key `k` and value `v`, on an open database where `k` is
not locked by an open transaction, `put(k, v)` followed by `get(k)` returns
`Some v`, and `delete(k)` followed by `get(k)` returns absence (`Ok None`),
with no intervening writes to `k`. -/
theorem C1_put_get_delete_get (mf : MergeFn) (locks : List Key)
    (db : TransactionDB) (k : Key) (v : Val) (h : k ∉ locks) :
    (∃ db1, db.put locks k v = .ok db1 ∧ db1.get mf k = .ok (some v)) ∧
    (∃ db2, db.delete locks k = .ok db2 ∧ db2.get mf k = .ok none) := by
  refine ⟨⟨⟨db.history ++ [.put k v]⟩, ?_, ?_⟩,
          ⟨⟨db.history ++ [.del k]⟩, ?_, ?_⟩⟩
  · simp [TransactionDB.put, h]
  · simp [TransactionDB.get, viewGet_put]
  · simp [TransactionDB.delete, h]
  · simp [TransactionDB.get, viewGet_del]

/-- C1 witness: concrete instantiation on an empty database with no locks
held. -/
theorem C1_put_get_delete_get_witness :
    (([1] : Key) ∉ ([] : List Key)) ∧
    ((∃ db1, TransactionDB.put [] ⟨[]⟩ [1] [2] = .ok db1 ∧
        db1.get concatMerge [1] = .ok (some [2])) ∧
     (∃ db2, TransactionDB.delete [] ⟨[]⟩ [1] = .ok db2 ∧
        db2.get concatMerge [1] = .ok none)) :=
  ⟨by decide, C1_put_get_delete_get concatMerge [] ⟨[]⟩ [1] [2] (by decide)⟩

/-- C2: a snapshot taken after `put(k, v1)` is pinned to the history prefix
committed at its creation: reads through it are unaffected by any writes
committed later (for every later suffix and every key), so after
`put(k, v2)` the snapshot read still returns `v1` while a fresh read
without the snapshot returns `v2`. -/
theorem C2_snapshot_isolation (mf : MergeFn) (db : TransactionDB)
    (k : Key) (v1 v2 : Val) :
    ∃ db1 db2,
      db.put [] k v1 = .ok db1 ∧
      db1.put [] k v2 = .ok db2 ∧
      (∀ (later : List WriteOp) (k' : Key),
        snapshotGet mf ⟨db1.history ++ later⟩ db1.snapshotSeq k'
          = db1.get mf k') ∧
      snapshotGet mf db2 db1.snapshotSeq k = .ok (some v1) ∧
      db2.get mf k = .ok (some v2) := by
  refine ⟨⟨db.history ++ [.put k v1]⟩,
          ⟨(db.history ++ [.put k v1]) ++ [.put k v2]⟩, ?_, ?_, ?_, ?_, ?_⟩
  · simp [TransactionDB.put]
  · simp [TransactionDB.put]
  · intro later k'
    simp only [snapshotGet, TransactionDB.snapshotSeq, TransactionDB.get]
    rw [List.take_left]
  · simp only [snapshotGet, TransactionDB.snapshotSeq]
    rw [List.take_left]
    exact viewGet_put mf db.history k v1
  · simp only [TransactionDB.get]
    exact viewGet_put mf (db.history ++ [.put k v1]) k v2

/-- C3: a transaction's uncommitted `put(k, v1)` is only buffered: a read
outside it (a plain database `get`, or another transaction with no buffered
writes to `k`) still observes the committed state, and only after
`commit()` do subsequently-issued reads observe `v1`. -/
theorem C3_txn_write_isolation (mf : MergeFn) (db : TransactionDB) (k : Key)
    (v1 : Val) (t2 : Txn) (h2 : bufferedFor t2.buffer k = []) :
    ∃ t1,
      Txn.put [] (Txn.begin db false) k v1 = .ok t1 ∧
      t1.buffer = [.put k v1] ∧
      Txn.get mf db t2 k = db.get mf k ∧
      ∃ db' t1c,
        Txn.commit db t1 = .ok (db', t1c) ∧
        db'.get mf k = .ok (some v1) ∧
        Txn.get mf db' t2 k = db'.get mf k := by
  refine ⟨⟨[.put k v1], [], [k], none, .opened⟩, ?_, rfl, ?_,
          ⟨db.history ++ [.put k v1]⟩,
          ⟨[.put k v1], [], [], none, .committedTx⟩, ?_, ?_, ?_⟩
  · simp [Txn.put, Txn.begin, acquireLock]
  · simp [Txn.get, h2]
  · simp [Txn.commit]
  · simp [TransactionDB.get, viewGet_put]
  · simp [Txn.get, h2]

/-- C3 witness: concrete instantiation with an empty database and a fresh
second transaction. -/
theorem C3_txn_write_isolation_witness :
    bufferedFor (Txn.begin ⟨[]⟩ false).buffer [1] = [] ∧
    (∃ t1,
      Txn.put [] (Txn.begin (⟨[]⟩ : TransactionDB) false) [1] [2] = .ok t1 ∧
      t1.buffer = [.put [1] [2]] ∧
      Txn.get concatMerge ⟨[]⟩ (Txn.begin ⟨[]⟩ false) [1]
        = TransactionDB.get concatMerge ⟨[]⟩ [1] ∧
      ∃ db' t1c,
        Txn.commit ⟨[]⟩ t1 = .ok (db', t1c) ∧
        db'.get concatMerge [1] = .ok (some [2]) ∧
        Txn.get concatMerge db' (Txn.begin ⟨[]⟩ false) [1]
          = db'.get concatMerge [1]) :=
  ⟨by decide,
   C3_txn_write_isolation concatMerge ⟨[]⟩ [1] [2] (Txn.begin ⟨[]⟩ false)
     (by decide)⟩

/-- C4: `get_for_update(k)` on a fresh transaction locks `k`; while that
transaction is open, a database-level `put(k, v2)` fails immediately with
the lock/timeout error; after the transaction commits or rolls back
(releasing its locks), the same `put` succeeds. -/
theorem C4_get_for_update_lock (mf : MergeFn) (db : TransactionDB) (k : Key)
    (v2 : Val) (r : Option Val) (hr : db.get mf k = .ok r) :
    ∃ t1,
      Txn.getForUpdate mf [] db (Txn.begin db false) k = .ok (r, t1) ∧
      k ∈ t1.locks ∧
      db.put t1.locks k v2 = .error lockTimeoutErr ∧
      (∃ db1 t1c, Txn.commit db t1 = .ok (db1, t1c) ∧
        ∃ db2, db1.put t1c.locks k v2 = .ok db2) ∧
      (∃ t1r, Txn.rollback t1 = .ok t1r ∧
        ∃ db2, db.put t1r.locks k v2 = .ok db2) := by
  refine ⟨⟨[], [], [k], none, .opened⟩, ?_, ?_, ?_, ?_, ?_⟩
  · simp [Txn.getForUpdate, Txn.begin, acquireLock, Txn.get, bufferedFor, hr]
  · exact List.mem_singleton.mpr rfl
  · simp [TransactionDB.put]
  · exact ⟨⟨db.history ++ []⟩, ⟨[], [], [], none, .committedTx⟩,
      by simp [Txn.commit], ⟨⟨(db.history ++ []) ++ [.put k v2]⟩,
      by simp [TransactionDB.put]⟩⟩
  · exact ⟨⟨[], [], [], none, .rolledBack⟩, by simp [Txn.rollback],
      ⟨⟨db.history ++ [.put k v2]⟩, by simp [TransactionDB.put]⟩⟩

/-- C4 witness: concrete instantiation on a one-entry database. -/
theorem C4_get_for_update_lock_witness :
    TransactionDB.get concatMerge ⟨[.put [1] [7]]⟩ [1] = .ok (some [7]) ∧
    (∃ t1,
      Txn.getForUpdate concatMerge [] (⟨[.put [1] [7]]⟩ : TransactionDB)
        (Txn.begin ⟨[.put [1] [7]]⟩ false) [1] = .ok (some [7], t1) ∧
      [1] ∈ t1.locks ∧
      TransactionDB.put t1.locks ⟨[.put [1] [7]]⟩ [1] [9]
        = .error lockTimeoutErr ∧
      (∃ db1 t1c, Txn.commit ⟨[.put [1] [7]]⟩ t1 = .ok (db1, t1c) ∧
        ∃ db2, db1.put t1c.locks [1] [9] = .ok db2) ∧
      (∃ t1r, Txn.rollback t1 = .ok t1r ∧
        ∃ db2, TransactionDB.put t1r.locks ⟨[.put [1] [7]]⟩ [1] [9]
          = .ok db2)) :=
  ⟨rfl, C4_get_for_update_lock concatMerge ⟨[.put [1] [7]]⟩ [1] [9]
    (some [7]) rfl⟩

/-- C5: within an open transaction, `put(k1, v1)`; `set_savepoint()`;
`put(k2, v2)`; `rollback_to_savepoint()` discards exactly the operations
issued after the savepoint (restoring buffer, lock set and savepoint
stack) and pops it; committing then leaves `k1` present with `v1` and `k2`
exactly as it was before (in particular absent when it was absent). -/
theorem C5_savepoint_rollback (mf : MergeFn) (db : TransactionDB)
    (k1 k2 : Key) (v1 v2 : Val) (hne : k2 ≠ k1) :
    ∃ ta tc td dbf tf,
      Txn.put [] (Txn.begin db false) k1 v1 = .ok ta ∧
      (ta.setSavepoint).put [] k2 v2 = .ok tc ∧
      tc.buffer = ta.buffer ++ [.put k2 v2] ∧
      Txn.rollbackToSavepoint tc = .ok td ∧
      td.buffer = ta.buffer ∧
      td.savepoints = ta.savepoints ∧
      td.locks = ta.locks ∧
      Txn.commit db td = .ok (dbf, tf) ∧
      dbf.get mf k1 = .ok (some v1) ∧
      dbf.get mf k2 = db.get mf k2 ∧
      (db.get mf k2 = .ok none → dbf.get mf k2 = .ok none) := by
  refine ⟨⟨[.put k1 v1], [], [k1], none, .opened⟩,
          ⟨[.put k1 v1, .put k2 v2], [(1, [k1])], [k2, k1], none, .opened⟩,
          ⟨[.put k1 v1], [], [k1], none, .opened⟩,
          ⟨db.history ++ [.put k1 v1]⟩,
          ⟨[.put k1 v1], [], [], none, .committedTx⟩,
          ?_, ?_, rfl, ?_, rfl, rfl, rfl, ?_, ?_, ?_, ?_⟩
  · simp [Txn.put, Txn.begin, acquireLock]
  · simp [Txn.put, Txn.setSavepoint, acquireLock, hne]
  · simp [Txn.rollbackToSavepoint]
  · simp [Txn.commit]
  · simp [TransactionDB.get, viewGet_put]
  · exact viewGet_other mf db.history (.put k1 v1) k2 (Ne.symm hne)
  · intro h0
    rw [show (⟨db.history ++ [.put k1 v1]⟩ : TransactionDB).get mf k2
          = db.get mf k2 from
        viewGet_other mf db.history (.put k1 v1) k2 (Ne.symm hne)]
    exact h0

/-- C5 witness: concrete instantiation on an empty database with distinct
keys. -/
theorem C5_savepoint_rollback_witness :
    (([2] : Key) ≠ [1]) ∧
    (∃ ta tc td dbf tf,
      Txn.put [] (Txn.begin (⟨[]⟩ : TransactionDB) false) [1] [3] = .ok ta ∧
      (ta.setSavepoint).put [] [2] [4] = .ok tc ∧
      tc.buffer = ta.buffer ++ [.put [2] [4]] ∧
      Txn.rollbackToSavepoint tc = .ok td ∧
      td.buffer = ta.buffer ∧
      td.savepoints = ta.savepoints ∧
      td.locks = ta.locks ∧
      Txn.commit ⟨[]⟩ td = .ok (dbf, tf) ∧
      dbf.get concatMerge [1] = .ok (some [3]) ∧
      dbf.get concatMerge [2] = TransactionDB.get concatMerge ⟨[]⟩ [2] ∧
      (TransactionDB.get concatMerge ⟨[]⟩ [2] = .ok none →
        dbf.get concatMerge [2] = .ok none)) :=
  ⟨by decide,
   C5_savepoint_rollback concatMerge ⟨[]⟩ [1] [2] [3] [4] (by decide)⟩

/-- C6: after `seek(k)` a valid iterator is positioned on the smallest
stored key `≥ k` in the comparator order, and after `seek_for_prev(k)` on
the largest stored key `≤ k`; when no such key exists the iterator is
invalid (and it is invalid exactly then). -/
theorem C6_seek_and_seek_for_prev (mf : MergeFn) (db : TransactionDB)
    (k : Key) :
    (∀ j, ((db.rawIterator mf).seek k).currentKey = some j →
        j ∈ storedKeys mf db.history ∧ KeyLE k j ∧
        ∀ j' ∈ storedKeys mf db.history, KeyLE k j' → KeyLE j j') ∧
    (((db.rawIterator mf).seek k).valid = false ↔
        ∀ j' ∈ storedKeys mf db.history, ¬ KeyLE k j') ∧
    (∀ j, ((db.rawIterator mf).seekForPrev k).currentKey = some j →
        j ∈ storedKeys mf db.history ∧ KeyLE j k ∧
        ∀ j' ∈ storedKeys mf db.history, KeyLE j' k → KeyLE j' j) ∧
    (((db.rawIterator mf).seekForPrev k).valid = false ↔
        ∀ j' ∈ storedKeys mf db.history, ¬ KeyLE j' k) := by
  have hs := storedKeys_sorted mf db.history
  refine ⟨?_, ?_, ?_, ?_⟩
  · intro j hj
    have hj' : seekList (storedKeys mf db.history) k = some j := hj
    exact ⟨seekList_mem hj', seekList_ge hj', seekList_min hs hj'⟩
  · constructor
    · intro hv
      refine seekList_none ?_
      cases hcase : seekList (storedKeys mf db.history) k with
      | none => rfl
      | some j =>
        simp [DBRawIterator.valid, DBRawIterator.seek,
              TransactionDB.rawIterator, hcase] at hv
    · intro hall
      simp [DBRawIterator.valid, DBRawIterator.seek,
            TransactionDB.rawIterator, seekList_none_of hall]
  · intro j hj
    have hj' : seekPrevList (storedKeys mf db.history) k = some j := hj
    exact ⟨seekPrevList_mem hj', seekPrevList_le hj', seekPrevList_max hs hj'⟩
  · constructor
    · intro hv
      refine seekPrevList_none hs ?_
      cases hcase : seekPrevList (storedKeys mf db.history) k with
      | none => rfl
      | some j =>
        simp [DBRawIterator.valid, DBRawIterator.seekForPrev,
              TransactionDB.rawIterator, hcase] at hv
    · intro hall
      simp [DBRawIterator.valid, DBRawIterator.seekForPrev,
            TransactionDB.rawIterator, seekPrevList_none_of hs hall]

/-- C6 witness: the spec example — store `k1, k2, k4`, probe `k3`
(`k` = byte 107, digits 49–52): `seek(k3)` lands on `k4`, `seek_for_prev(k3)`
lands on `k2`, both stored, on the correct side of the probe, and optimal
against the other candidate. -/
theorem C6_seek_and_seek_for_prev_witness :
    [107, 52] ∈ storedKeys concatMerge
      [.put [107, 49] [1], .put [107, 50] [2], .put [107, 52] [4]] ∧
    KeyLE [107, 51] [107, 52] ∧
    KeyLE [107, 52] [107, 52] ∧
    [107, 50] ∈ storedKeys concatMerge
      [.put [107, 49] [1], .put [107, 50] [2], .put [107, 52] [4]] ∧
    KeyLE [107, 50] [107, 51] ∧
    KeyLE [107, 50] [107, 50] := by
  have h := C6_seek_and_seek_for_prev concatMerge
    ⟨[.put [107, 49] [1], .put [107, 50] [2], .put [107, 52] [4]]⟩ [107, 51]
  have h1 := h.1 [107, 52] (by decide)
  have h2 := h.2.2.1 [107, 50] (by decide)
  exact ⟨h1.1, h1.2.1, h1.2.2 [107, 52] h1.1 h1.2.1,
         h2.1, h2.2.1, h2.2.2 [107, 50] h2.1 h2.2.1⟩

/-- C7: with a registered merge operator, `put(k, a)`, `merge(k, b)`,
`merge(k, c)` followed by `get(k)` returns the operator's combination of
base `a` with operands `b, c` in that order; for the concatenation operator
of the test suite this is `a ++ b ++ c`. -/
theorem C7_merge_combination (mf : MergeFn) (db : TransactionDB) (k : Key)
    (a b c : Val) :
    ∃ db1 db2 db3,
      db.put [] k a = .ok db1 ∧
      db1.mergeOp [] k b = .ok db2 ∧
      db2.mergeOp [] k c = .ok db3 ∧
      db3.get mf k =
        (match mf k (some a) [b, c] with
         | some r => .ok (some r)
         | none => .error mergeFailedErr) ∧
      db3.get concatMerge k = .ok (some (a ++ b ++ c)) := by
  refine ⟨⟨db.history ++ [.put k a]⟩,
          ⟨(db.history ++ [.put k a]) ++ [.merge k b]⟩,
          ⟨((db.history ++ [.put k a]) ++ [.merge k b]) ++ [.merge k c]⟩,
          ?_, ?_, ?_, ?_, ?_⟩
  · simp [TransactionDB.put]
  · simp [TransactionDB.mergeOp]
  · simp [TransactionDB.mergeOp]
  · simp only [TransactionDB.get, viewGet, keyState_merge, keyState_put]
    simp
  · simp only [TransactionDB.get, viewGet, keyState_merge, keyState_put]
    simp [concatMerge]

/-- C10: a transaction whose write buffer holds merge operands for key `k`
gets an error from its own `get(k)`, never the merged value; only after the
transaction commits does a read return the merge operator's combination. -/
theorem C10_get_with_pending_merge (mf : MergeFn) (db : TransactionDB)
    (t : Txn) (k : Key) (a b : Val)
    (h : (bufferedFor t.buffer k).any WriteOp.isMerge = true) :
    Txn.get mf db t k = .error mergeInProgressErr ∧
    ∃ t1 t2,
      Txn.put [] (Txn.begin db false) k a = .ok t1 ∧
      Txn.mergeOp [] t1 k b = .ok t2 ∧
      Txn.get mf db t2 k = .error mergeInProgressErr ∧
      ∃ db' tc, Txn.commit db t2 = .ok (db', tc) ∧
        db'.get mf k =
          (match mf k (some a) [b] with
           | some r => .ok (some r)
           | none => .error mergeFailedErr) := by
  refine ⟨by simp [Txn.get, h],
          ⟨[.put k a], [], [k], none, .opened⟩,
          ⟨[.put k a, .merge k b], [], [k], none, .opened⟩,
          ?_, ?_, ?_,
          ⟨db.history ++ [.put k a, .merge k b]⟩,
          ⟨[.put k a, .merge k b], [], [], none, .committedTx⟩, ?_, ?_⟩
  · simp [Txn.put, Txn.begin, acquireLock]
  · simp [Txn.mergeOp, acquireLock]
  · simp [Txn.get, bufferedFor, WriteOp.key, WriteOp.isMerge]
  · simp [Txn.commit]
  · have e : db.history ++ [WriteOp.put k a, WriteOp.merge k b]
        = (db.history ++ [WriteOp.put k a]) ++ [WriteOp.merge k b] := by simp
    simp only [TransactionDB.get, e, viewGet, keyState_merge, keyState_put]
    simp

/-- C10 witness: a transaction whose buffer holds one pending merge operand
for key `[1]` gets the merge-in-progress error from its own read. -/
theorem C10_get_with_pending_merge_witness :
    (bufferedFor [WriteOp.merge [1] [2]] [1]).any WriteOp.isMerge = true ∧
    Txn.get concatMerge ⟨[]⟩
      ⟨[.merge [1] [2]], [], [[1]], none, .opened⟩ [1]
      = .error mergeInProgressErr :=
  ⟨by decide,
   (C10_get_with_pending_merge concatMerge ⟨[]⟩
      ⟨[.merge [1] [2]], [], [[1]], none, .opened⟩ [1] [3] [4]
      (by decide)).1⟩

/-- C8: after `drop_column_family(name)` succeeds, the registry no longer
resolves that family, so any operation addressed to it fails with the
column-family error rather than reaching a dangling native handle; dropping
a name not present fails with that error and leaves the registry
unchanged. -/
theorem C8_drop_column_family (cfs : CfRegistry) (name : String) :
    (∀ h, cf_handle cfs name = some h →
       ∃ cfs', drop_cf cfs name = (cfs', .ok ()) ∧
         cf_handle cfs' name = none ∧
         resolveCf cfs' name
           = .error ⟨"Invalid column family: " ++ name⟩) ∧
    (cf_handle cfs name = none →
       drop_cf cfs name
         = (cfs, .error ⟨"Invalid column family: " ++ name⟩)) := by
  constructor
  · intro h hh
    cases hfind : cfs.find? (fun p => p.1 = name) with
    | none => simp [cf_handle, hfind] at hh
    | some pr =>
      refine ⟨cfs.filter (fun p => p.1 ≠ name), ?_, ?_, ?_⟩
      · simp [drop_cf, hfind]
      · have hnone : (cfs.filter (fun p => p.1 ≠ name)).find?
            (fun p => p.1 = name) = none := by
          rw [List.find?_eq_none]
          intro x hx
          have := (List.mem_filter.mp hx).2
          simpa using this
        simp [cf_handle, hnone]
      · have hnone : (cfs.filter (fun p => p.1 ≠ name)).find?
            (fun p => p.1 = name) = none := by
          rw [List.find?_eq_none]
          intro x hx
          have := (List.mem_filter.mp hx).2
          simpa using this
        simp only [resolveCf, cf_handle]
        rw [hnone]
        rfl
  · intro hnone
    cases hfind : cfs.find? (fun p => p.1 = name) with
    | none => simp [drop_cf, hfind]
    | some pr => simp [cf_handle, hfind] at hnone

/-- C8 witness: a one-entry registry — dropping `"cf1"` succeeds and
invalidates later resolution; dropping the absent `"nope"` fails and leaves
the registry as it was. -/
theorem C8_drop_column_family_witness :
    cf_handle [("cf1", 1)] "cf1" = some 1 ∧
    drop_cf [("cf1", 1)] "cf1" = ([], .ok ()) ∧
    cf_handle ([] : CfRegistry) "cf1" = none ∧
    resolveCf ([] : CfRegistry) "cf1"
      = .error ⟨"Invalid column family: " ++ "cf1"⟩ ∧
    cf_handle [("cf1", 1)] "nope" = none ∧
    drop_cf [("cf1", 1)] "nope"
      = ([("cf1", 1)], .error ⟨"Invalid column family: " ++ "nope"⟩) := by
  obtain ⟨cfs', h1, h2, h3⟩ :=
    (C8_drop_column_family [("cf1", 1)] "cf1").1 1 rfl
  have h0 : drop_cf [("cf1", 1)] "cf1" = ([], .ok ()) := rfl
  have hce : cfs' = [] := by
    rw [h0] at h1
    exact (((Prod.mk.injEq _ _ _ _).mp h1).1).symm
  subst hce
  exact ⟨rfl, h0, h2, h3, rfl,
         (C8_drop_column_family [("cf1", 1)] "nope").2 rfl⟩

/-- C9: the wrapper decodes a native read reply so that absence of the key
is a successful result carrying no value (`Ok(None)`, from a null value
pointer), an engine failure is an error (`Err`, via `ffi_try!`), and a hit
is `Ok(Some(v))` — the three outcomes are mutually exclusive and never
conflated, identically for `get` and `get_pinned`. -/
theorem C9_absence_is_not_failure (reply : EngineReply) :
    (get_cf_full reply = .ok none ↔ reply = .notFound) ∧
    ((∃ e, get_cf_full reply = .error e) ↔ (∃ m, reply = .fail m)) ∧
    (∀ v, get_cf_full reply = .ok (some v) ↔ reply = .found v) ∧
    get_pinned_opt reply = get_cf_full reply := by
  cases reply <;> simp [get_cf_full, get_pinned_opt]

/-- C9 witness: the three decoded outcomes at concrete replies, and the
agreement of `get_pinned` with `get` on one of them. -/
theorem C9_absence_is_not_failure_witness :
    get_cf_full .notFound = .ok none ∧
    get_cf_full (.fail "boom") = .error ⟨"boom"⟩ ∧
    get_cf_full (.found [1]) = .ok (some [1]) ∧
    get_pinned_opt .notFound = get_cf_full .notFound :=
  ⟨(C9_absence_is_not_failure .notFound).1.mpr rfl, rfl,
   ((C9_absence_is_not_failure (.found [1])).2.2.1 [1]).mpr rfl,
   (C9_absence_is_not_failure .notFound).2.2.2⟩

end RocksDB
